import Mathlib

set_option linter.unusedVariables false

/-!
Shallow embedding of the vanadinite memory and spawn subsystems.

Sources embedded here:
- src/vanadinite/src/mem/heap/free_list.rs (free-list kernel heap)
- src/vanadinite/src/mem/paging/manager.rs (page table manager, map_mmio)
- src/shared/librust/src/mem.rs (DmaRegion, DmaElement, MemoryAllocation)
- src/userspace/libs/std/src/vmspace.rs (Vmspace and the spawn hand-off)

Machine integers are modelled as Nat; addresses are byte addresses.
-/

namespace Vanadinite

/-! ## Free-list kernel heap (free_list.rs) -/

/-- Size in bytes of the in-band FreeListNode header: a next pointer
(8 bytes, the Option niche is free) followed by a usize size, repr(C). -/
def FreeListNode.struct_size : Nat := 16

/-- Function align_to_usize from free_list.rs: round n up to a multiple of
the 8-byte machine word. The source computes (n + 7) masked with the
complement of 7, which on Nat is (n + 7) minus its remainder mod 8. -/
def align_to_usize (n : Nat) : Nat := (n + 7) - (n + 7) % 8

/-- A free-list node: its address in memory and its size field, which
excludes the header itself. The next links are represented positionally:
the Lean list holds the nodes in link order starting from the head. -/
structure FreeListNode where
  addr : Nat
  size : Nat
deriving Repr, DecidableEq

/-- FreeListNode.split on a node of the model. The source asserts that the
current size exceeds new_size plus the header, re-aligns new_size, shrinks
the node in place and writes a fresh header right after the shrunk block.
Returns the shrunk node and the new node, or none on the assert failure. -/
def FreeListNode.split (node : FreeListNode) (new_size : Nat) :
    Option (FreeListNode × FreeListNode) :=
  if node.size > new_size + FreeListNode.struct_size then
    let new_size := align_to_usize new_size
    let other_size := node.size - new_size - FreeListNode.struct_size
    some (⟨node.addr, new_size⟩,
          ⟨node.addr + FreeListNode.struct_size + new_size, other_size⟩)
  else none

/-- Outcome of FreeListAllocator.alloc: a panic (todo on large alignment,
expect on a missing head or a missing next), a null pointer when the list
is exhausted, or success carrying the block whose payload is returned
(its header address and the size recorded in its header) together with
the free list left behind. -/
inductive AllocResult where
  | panic
  | null
  | success (blk : FreeListNode) (newFree : List FreeListNode)
deriving Repr, DecidableEq

/-- The loop inside FreeListAllocator.alloc. The size argument is already
word aligned. isFirst records whether prev_node is still None, i.e.
whether the node under scrutiny is the list head. On the no-split reuse
path the source runs this.head gets Some of next.expect, which panics when
the head node has no next. -/
def allocLoop (size : Nat) : Bool → List FreeListNode → AllocResult
  | _, [] => .null
  | isFirst, node :: rest =>
    let enough_for_split := node.size ≥ size + FreeListNode.struct_size + 8
    if node.size ≥ size ∧ ¬enough_for_split then
      if isFirst ∧ rest = [] then .panic
      else .success node rest
    else if node.size ≥ size ∧ enough_for_split then
      match node.split size with
      | some (shrunk, newNode) => .success shrunk (newNode :: rest)
      | none => .panic
    else
      match allocLoop size false rest with
      | .success blk newF => .success blk (node :: newF)
      | r => r

/-- FreeListAllocator.alloc. The free list is the state; size and align
come from the Layout. The source first word-aligns the size, then panics
on align above 8 (todo), then takes the head, panicking when the allocator
was never initialized, and runs the loop. -/
def alloc (free : List FreeListNode) (size align : Nat) : AllocResult :=
  let sizeW := align_to_usize size
  if align > 8 then .panic
  else
    match free with
    | [] => .panic
    | node :: rest => allocLoop sizeW true (node :: rest)

/-- FreeListAllocator.init over the region starting at origin with the
given byte size: a single head node at origin whose size field excludes
the header. -/
def initFreeList (origin size : Nat) : List FreeListNode :=
  [⟨origin, size - FreeListNode.struct_size⟩]

/-- The heap state: the free list plus the blocks currently handed out.
An allocated block records the header address and the size stored in its
header by alloc, which is what dealloc reads back. -/
structure HeapState where
  free : List FreeListNode
  allocated : List FreeListNode
deriving Repr, DecidableEq

/-- FreeListAllocator.dealloc of an allocated block: recompute the header
one header length before the payload and push it at the head of the free
list. No coalescing. -/
def dealloc (st : HeapState) (blk : FreeListNode) : HeapState :=
  { free := blk :: st.free, allocated := st.allocated.erase blk }

/-- The heap immediately after init(origin, size). -/
def initHeap (origin size : Nat) : HeapState :=
  { free := initFreeList origin size, allocated := [] }

/-- States reachable from init by any sequence of successful alloc calls
and dealloc calls on blocks that were handed out earlier. -/
inductive Reachable (origin total : Nat) : HeapState → Prop where
  | init : Reachable origin total (initHeap origin total)
  | allocStep {st : HeapState} {sz al : Nat} {blk : FreeListNode}
      {nf : List FreeListNode} :
      Reachable origin total st → alloc st.free sz al = .success blk nf →
      Reachable origin total { free := nf, allocated := blk :: st.allocated }
  | deallocStep {st : HeapState} {blk : FreeListNode} :
      Reachable origin total st → blk ∈ st.allocated →
      Reachable origin total (dealloc st blk)

/-! ## Page table manager (manager.rs) -/

/-- Sv39 page sizes. Only kilopage (4 KiB) is used by map_mmio. -/
inductive PageSize where
  | kilopage
  | megapage
  | gigapage
deriving Repr, DecidableEq

/-- Leaf permissions: read, write, execute flags. map_mmio passes
Read combined with Write. -/
structure Permissions where
  read : Bool
  write : Bool
  execute : Bool
deriving Repr, DecidableEq

/-- One installed leaf mapping: physical base, virtual base, page size and
permissions. -/
structure LeafMapping where
  map_from : Nat
  map_to : Nat
  size : PageSize
  perms : Permissions
deriving Repr, DecidableEq

/-- Byte size of each Sv39 page size: 4 KiB, 2 MiB, 1 GiB. -/
def PageSize.bytes : PageSize → Nat
  | .kilopage => 4096
  | .megapage => 0x200000
  | .gigapage => 0x40000000

/-- Modelled from the spec: Sv39PageTable.map is not under src. Per the
spec, map_from and map_to not aligned to the page size are rejected, and
during the walk a leaf entry encountered where a branch is required, i.e.
an already-installed larger leaf whose virtual page contains map_to, is a
collision and is reported; otherwise the leaf entry is written at the
target level. The table is modelled as the ordered list of installed
leaves; none models the reported rejection. -/
def Sv39PageTable.map (tbl : List LeafMapping) (map_from map_to : Nat)
    (sz : PageSize) (perms : Permissions) : Option (List LeafMapping) :=
  if map_from % sz.bytes = 0 ∧ map_to % sz.bytes = 0 then
    if tbl.any (fun m => decide (sz.bytes < m.size.bytes
        ∧ m.map_to ≤ map_to ∧ map_to < m.map_to + m.size.bytes)) then
      none
    else
      some (tbl ++ [⟨map_from, map_to, sz, perms⟩])
  else none

/-- PageTableManager.map_direct: delegates to the root table map with the
given page size and permissions. manager.rs discards the result of the
walk; the Option keeps the reported rejection observable to callers of
the model. -/
def map_direct (tbl : List LeafMapping) (map_from map_to : Nat)
    (sz : PageSize) (perms : Permissions) : Option (List LeafMapping) :=
  Sv39PageTable.map tbl map_from map_to sz perms

/-- MMIO_DEVICE_OFFSET from manager.rs. -/
def MMIO_DEVICE_OFFSET : Nat := 0xFFFFFFE000000000

/-- PageTableManager.map_mmio: asserts that size is a multiple of 4096
(none models the assertion failure), computes map_to as map_from plus the
MMIO device offset, maps each 4 KiB slice with read and write permissions
as a kilopage, and returns the updated table together with map_to. The
source ignores what map_direct reports, so a rejected slice installs
nothing and the loop continues; map_to is returned regardless. -/
def map_mmio (tbl : List LeafMapping) (map_from size : Nat) :
    Option (List LeafMapping × Nat) :=
  if size % 4096 = 0 then
    let map_to := map_from + MMIO_DEVICE_OFFSET
    some ((List.range (size / 4096)).foldl
      (fun t idx => (map_direct t (map_from + idx * 4096) (map_to + idx * 4096)
        PageSize.kilopage ⟨true, true, false⟩).getD t) tbl,
      map_to)
  else none

/-! ## DMA regions and MemoryAllocation (mem.rs) -/

/-- DmaRegion over a slice of T: physical base address, the data pointer
of the fat pointer, and the slice length metadata. The element byte size,
size_of T in the source, is passed explicitly to the operations. -/
structure DmaRegionSlice where
  phys : Nat
  virt : Nat
  len : Nat
deriving Repr, DecidableEq

/-- DmaElement: a borrowed element of a slice region, carrying its own
physical address and element pointer. -/
structure DmaElement where
  phys : Nat
  virt : Nat
deriving Repr, DecidableEq

/-- DmaRegion.get for slice regions: when index is below the fat pointer
length it returns the element whose physical address is the region base
plus size_of T times index, and whose pointer is the indexed element;
otherwise None. -/
def DmaRegionSlice.get (elemSize : Nat) (r : DmaRegionSlice) (index : Nat) :
    Option DmaElement :=
  if index < r.len then
    some ⟨r.phys + elemSize * index, r.virt + elemSize * index⟩
  else none

/-- DmaRegion over a slice of MaybeUninit T: same representation as the
initialized view. -/
structure DmaRegionUninitSlice where
  phys : Nat
  virt : Nat
  len : Nat
deriving Repr, DecidableEq

/-- Function assume_init for slice regions: keeps phys and rebuilds the
fat pointer from the same data pointer and the same length. No syscall is
involved; it is a pure repackaging of the two fields. -/
def DmaRegionUninitSlice.assume_init (r : DmaRegionUninitSlice) :
    DmaRegionSlice :=
  ⟨r.phys, r.virt, r.len⟩

/-- DmaRegion over a single MaybeUninit T element. -/
structure DmaRegionUninit where
  phys : Nat
  virt : Nat
deriving Repr, DecidableEq

/-- DmaRegion over a single initialized T element. -/
structure DmaRegionSingle where
  phys : Nat
  virt : Nat
deriving Repr, DecidableEq

/-- Function assume_init for single-element regions: keeps phys and casts
the pointer in place. -/
def DmaRegionUninit.assume_init (r : DmaRegionUninit) : DmaRegionSingle :=
  ⟨r.phys, r.virt⟩

/-- The all-ones usize sentinel used for private capabilities. -/
def USIZE_MAX : Nat := 2 ^ 64 - 1

/-- AllocationOptions bitmask. Modelled from the spec: the librust
allocation syscall module is not under src; the spec gives NONE = 0 and
PRIVATE = 1. -/
def AllocationOptions.NONE : Nat := 0

/-- The PRIVATE allocation option flag. -/
def AllocationOptions.PRIVATE : Nat := 1

/-- MemoryPermissions flags for virtual allocations. -/
structure MemoryPermissions where
  read : Bool
  write : Bool
  execute : Bool
deriving Repr, DecidableEq

/-- READ combined with WRITE, as passed by public_rw and private_rw. -/
def MemoryPermissions.RW : MemoryPermissions := ⟨true, true, false⟩

/-- MemoryAllocation: the capability handle and the returned pointer. -/
structure MemoryAllocation where
  cptr : Nat
  ptr : Nat
deriving Repr, DecidableEq

/-- The syscall alloc_virtual_memory is not under src; it is passed as the
parameter sys, mapping size, options and permissions to an error or to the
capability and pointer pair. MemoryAllocation.new wraps its result. -/
def MemoryAllocation.new (sys : Nat → Nat → MemoryPermissions → Except Nat (Nat × Nat))
    (size options : Nat) (permissions : MemoryPermissions) :
    Except Nat MemoryAllocation :=
  match sys size options permissions with
  | .ok (cptr, ptr) => .ok ⟨cptr, ptr⟩
  | .error e => .error e

/-- MemoryAllocation.private_rw: new with the PRIVATE option and read plus
write permissions, then the capability replaced by the all-ones sentinel. -/
def MemoryAllocation.private_rw
    (sys : Nat → Nat → MemoryPermissions → Except Nat (Nat × Nat))
    (size : Nat) : Except Nat MemoryAllocation :=
  (MemoryAllocation.new sys size AllocationOptions.PRIVATE MemoryPermissions.RW).map
    (fun s => { s with cptr := USIZE_MAX })

/-! ## Vmspace and the spawn hand-off (vmspace.rs) -/

/-- Byte strings are lists of byte values. -/
abbrev Bytes := List Nat

/-- An observable event on an IPC channel: a data message or a capability
transfer. -/
inductive IpcEvent where
  | message (bytes : Bytes)
  | capability (cap : Nat) (rights : Nat)
deriving Repr, DecidableEq

/-- Modelled from the spec: the std IpcChannel is not under src. A channel
records, in order, the events sent on it; new_message, write and send
deliver one message whose bytes are the written bytes, and
send_capability delivers one capability with its rights. -/
structure IpcChannel where
  cptr : Nat
  sent : List IpcEvent
deriving Repr, DecidableEq

/-- IpcChannel.new on a capability: no events sent yet. -/
def IpcChannel.new (cptr : Nat) : IpcChannel := ⟨cptr, []⟩

/-- Sending one fully written message on the channel. -/
def IpcChannel.sendMessage (ch : IpcChannel) (bytes : Bytes) : IpcChannel :=
  { ch with sent := ch.sent ++ [.message bytes] }

/-- IpcChannel.send_capability. -/
def IpcChannel.send_capability (ch : IpcChannel) (cap rights : Nat) : IpcChannel :=
  { ch with sent := ch.sent ++ [.capability cap rights] }

/-- One staged grant: the name bytes, the capability pointer and the
rights. -/
structure Grant where
  name : Bytes
  cap : Nat
  rights : Nat
deriving Repr, DecidableEq

/-- Vmspace: the opaque object id and the staged caps_to_send list. -/
structure Vmspace where
  id : Nat
  caps_to_send : List Grant
deriving Repr, DecidableEq

/-- Vmspace.new: fresh id from create_vmspace, empty staging list. -/
def Vmspace.new (id : Nat) : Vmspace := ⟨id, []⟩

/-- Vmspace.grant pushes one entry onto the staging list. -/
def Vmspace.grant (v : Vmspace) (g : Grant) : Vmspace :=
  { v with caps_to_send := v.caps_to_send ++ [g] }

/-- UTF-8 bytes of the literal string done: d, o, n, e. -/
def doneBytes : Bytes := [0x64, 0x6F, 0x6E, 0x65]

/-- Result of Vmspace.spawn: on success the task id, the channel
capability and the list of events sent on the channel; otherwise the
propagated kernel error. -/
inductive SpawnResult where
  | ok (tid : Nat) (cptr : Nat) (sent : List IpcEvent)
  | err (e : Nat)
deriving Repr, DecidableEq

/-- Vmspace.spawn. The kernel syscall spawn_vmspace is not under src; its
result is the parameter sysResult. On a syscall error, spawn returns that
error before any channel exists. On success it opens the channel on the
returned capability, and for each staged grant sends the name bytes as one
message followed by the capability with its rights; finally it sends the
done message. -/
def Vmspace.spawn (v : Vmspace) (sysResult : Except Nat (Nat × Nat)) :
    SpawnResult :=
  match sysResult with
  | .error e => .err e
  | .ok (tid, cptr) =>
    let channel := IpcChannel.new cptr
    let channel := v.caps_to_send.foldl
      (fun ch g => (ch.sendMessage g.name).send_capability g.cap g.rights)
      channel
    let channel := channel.sendMessage doneBytes
    .ok tid cptr channel.sent

/-- Alignment invariant on heap states: every free node and every
allocated block sits at an 8-byte aligned header address. -/
def AddrAligned (st : HeapState) : Prop :=
  (∀ n ∈ st.free, n.addr % 8 = 0) ∧ ∀ n ∈ st.allocated, n.addr % 8 = 0

/-! ## Helper lemmas -/

theorem align_to_usize_mod (n : Nat) : align_to_usize n % 8 = 0 := by
  unfold align_to_usize; omega

theorem le_align_to_usize (n : Nat) : n ≤ align_to_usize n := by
  unfold align_to_usize; omega

theorem align_to_usize_of_mod {n : Nat} (h : n % 8 = 0) :
    align_to_usize n = n := by
  unfold align_to_usize; omega

theorem alloc_of_cons (node : FreeListNode) (rest : List FreeListNode)
    (sz al : Nat) (hal : al ≤ 8) :
    alloc (node :: rest) sz al = allocLoop (align_to_usize sz) true (node :: rest) := by
  simp [alloc, Nat.not_lt.mpr hal]

theorem allocLoop_success_props {size : Nat} (hs : size % 8 = 0) :
    ∀ (b : Bool) (l : List FreeListNode), (∀ n ∈ l, n.addr % 8 = 0) →
    ∀ blk nf, allocLoop size b l = AllocResult.success blk nf →
    blk.addr % 8 = 0 ∧ size ≤ blk.size ∧ ∀ n ∈ nf, n.addr % 8 = 0 := by
  intro b l
  induction l generalizing b with
  | nil => intro _ blk nf h; simp [allocLoop] at h
  | cons node rest ih =>
    intro hal blk nf h
    have hnode : node.addr % 8 = 0 := hal node (by simp)
    have hrest : ∀ n ∈ rest, n.addr % 8 = 0 := fun n hn => hal n (by simp [hn])
    rw [allocLoop] at h
    by_cases h1 : node.size ≥ size ∧ ¬ node.size ≥ size + FreeListNode.struct_size + 8
    · rw [if_pos h1] at h
      by_cases h2 : (b = true ∧ rest = [])
      · rw [if_pos h2] at h
        exact absurd h (by simp)
      · rw [if_neg h2] at h
        cases h
        exact ⟨hnode, h1.1, hrest⟩
    · rw [if_neg h1] at h
      by_cases h2 : node.size ≥ size ∧ node.size ≥ size + FreeListNode.struct_size + 8
      · rw [if_pos h2] at h
        have hsp : node.split size =
            some (⟨node.addr, size⟩,
              ⟨node.addr + FreeListNode.struct_size + size,
               node.size - size - FreeListNode.struct_size⟩) := by
          unfold FreeListNode.split
          rw [if_pos (by unfold FreeListNode.struct_size at *; omega)]
          simp [align_to_usize_of_mod hs]
        rw [hsp] at h
        cases h
        refine ⟨hnode, Nat.le_refl _, ?_⟩
        intro n hn
        rcases List.mem_cons.mp hn with hn | hn
        · subst hn
          show (node.addr + FreeListNode.struct_size + size) % 8 = 0
          unfold FreeListNode.struct_size
          omega
        · exact hrest n hn
      · rw [if_neg h2] at h
        cases hrec : allocLoop size false rest with
        | panic => rw [hrec] at h; exact absurd h (by simp)
        | null => rw [hrec] at h; exact absurd h (by simp)
        | success blk2 newF =>
          rw [hrec] at h
          obtain ⟨a1, a2, a3⟩ := ih false hrest blk2 newF hrec
          cases h
          refine ⟨a1, a2, ?_⟩
          intro n hn
          rcases List.mem_cons.mp hn with hn | hn
          · subst hn; exact hnode
          · exact a3 n hn

theorem alloc_success_elim {free : List FreeListNode} {sz al : Nat}
    {blk : FreeListNode} {nf : List FreeListNode}
    (h : alloc free sz al = AllocResult.success blk nf) :
    al ≤ 8 ∧ allocLoop (align_to_usize sz) true free = AllocResult.success blk nf := by
  unfold alloc at h
  by_cases hal : al > 8
  · simp [hal] at h
  · refine ⟨by omega, ?_⟩
    cases free with
    | nil => simp [hal] at h
    | cons node rest => simpa [hal] using h

theorem reachable_addrAligned {origin total : Nat} {st : HeapState}
    (ho : origin % 8 = 0) (h : Reachable origin total st) : AddrAligned st := by
  induction h with
  | init =>
    constructor
    · intro n hn
      simp [initHeap, initFreeList] at hn
      simp [hn, ho]
    · intro n hn
      simp [initHeap] at hn
  | @allocStep st2 sz al blk nf hr hstep ih =>
    obtain ⟨-, hloop⟩ := alloc_success_elim hstep
    obtain ⟨h1, -, h3⟩ :=
      allocLoop_success_props (align_to_usize_mod sz) true st2.free ih.1 blk nf hloop
    refine ⟨h3, fun n hn => ?_⟩
    rcases List.mem_cons.mp hn with hn | hn
    · subst hn; exact h1
    · exact ih.2 n hn
  | @deallocStep st2 blk hr hm ih =>
    constructor
    · intro n hn
      rcases List.mem_cons.mp hn with hn | hn
      · subst hn; exact ih.2 n hm
      · exact ih.1 n hn
    · intro n hn
      exact ih.2 n (List.mem_of_mem_erase hn)

theorem allocLoop_split_eq (size : Nat) (hs : size % 8 = 0) :
    ∀ (b : Bool) (pre : List FreeListNode) (node : FreeListNode)
      (rest : List FreeListNode),
    (∀ n ∈ pre, n.size < size) →
    size + FreeListNode.struct_size + 8 ≤ node.size →
    allocLoop size b (pre ++ node :: rest) =
      AllocResult.success ⟨node.addr, size⟩
        (pre ++ ⟨node.addr + FreeListNode.struct_size + size,
                 node.size - size - FreeListNode.struct_size⟩ :: rest) := by
  intro b pre
  induction pre generalizing b with
  | nil =>
    intro node rest hskip hfit
    rw [List.nil_append, allocLoop]
    have h1 : ¬ (node.size ≥ size ∧ ¬ node.size ≥ size + FreeListNode.struct_size + 8) := by
      push_neg
      intro _
      omega
    rw [if_neg h1, if_pos ⟨by omega, by omega⟩]
    unfold FreeListNode.split
    rw [if_pos (by unfold FreeListNode.struct_size at *; omega)]
    simp [align_to_usize_of_mod hs]
  | cons p ps ih =>
    intro node rest hskip hfit
    have hp : p.size < size := hskip p (by simp)
    rw [List.cons_append, allocLoop]
    have h1 : ¬ (p.size ≥ size ∧ ¬ p.size ≥ size + FreeListNode.struct_size + 8) := by
      push_neg
      intro h
      omega
    have h2 : ¬ (p.size ≥ size ∧ p.size ≥ size + FreeListNode.struct_size + 8) := by
      push_neg
      intro h
      omega
    rw [if_neg h1, if_neg h2,
      ih false node rest (fun n hn => hskip n (by simp [hn])) hfit]
    rfl

theorem foldl_grant_caps (l : List Grant) :
    ∀ v : Vmspace, (l.foldl Vmspace.grant v).caps_to_send = v.caps_to_send ++ l := by
  induction l with
  | nil => intro v; simp
  | cons g gs ih => intro v; simp [ih, Vmspace.grant]

theorem foldl_send_sent (l : List Grant) :
    ∀ ch : IpcChannel,
      (l.foldl (fun ch g => (ch.sendMessage g.name).send_capability g.cap g.rights) ch).sent
        = ch.sent ++ l.flatMap
            (fun g => [IpcEvent.message g.name, IpcEvent.capability g.cap g.rights]) := by
  induction l with
  | nil => intro ch; simp
  | cons g gs ih =>
    intro ch
    rw [List.foldl_cons, ih]
    simp [IpcChannel.sendMessage, IpcChannel.send_capability]

theorem bind_pair_length (l : List Grant) :
    (l.flatMap (fun g => [IpcEvent.message g.name, IpcEvent.capability g.cap g.rights])).length
      = 2 * l.length := by
  induction l with
  | nil => simp
  | cons g gs ih => simp [ih]; omega

theorem map_direct_kilopage_ok (tbl : List LeafMapping) (pf pt : Nat)
    (hpf : pf % 4096 = 0) (hpt : pt % 4096 = 0)
    (htbl : ∀ m ∈ tbl, m.size = PageSize.kilopage) :
    map_direct tbl pf pt PageSize.kilopage ⟨true, true, false⟩ =
      some (tbl ++ [⟨pf, pt, PageSize.kilopage, ⟨true, true, false⟩⟩]) := by
  unfold map_direct Sv39PageTable.map
  rw [if_pos ⟨hpf, hpt⟩]
  have hany : ¬ (tbl.any (fun m => decide (PageSize.bytes PageSize.kilopage < m.size.bytes
      ∧ m.map_to ≤ pt ∧ pt < m.map_to + m.size.bytes)) = true) := by
    rw [List.any_eq_true]
    rintro ⟨m, hm, hdec⟩
    rw [decide_eq_true_eq] at hdec
    rw [htbl m hm] at hdec
    exact absurd hdec.1 (by simp [PageSize.bytes])
  rw [if_neg hany]

theorem map_mmio_foldl (P mt : Nat) (hP : P % 4096 = 0) (hmt : mt % 4096 = 0) :
    ∀ (l : List Nat) (tbl : List LeafMapping),
      (∀ m ∈ tbl, m.size = PageSize.kilopage) →
      l.foldl (fun t idx => (map_direct t (P + idx * 4096) (mt + idx * 4096)
          PageSize.kilopage ⟨true, true, false⟩).getD t) tbl
        = tbl ++ l.map (fun idx =>
            ⟨P + idx * 4096, mt + idx * 4096, PageSize.kilopage, ⟨true, true, false⟩⟩) := by
  intro l
  induction l with
  | nil => intro tbl _; simp
  | cons i is ih =>
    intro tbl htbl
    have hstep :
        ∀ m ∈ tbl ++ [(⟨P + i * 4096, mt + i * 4096, PageSize.kilopage,
            ⟨true, true, false⟩⟩ : LeafMapping)], m.size = PageSize.kilopage := by
      intro m hm
      rcases List.mem_append.mp hm with hm | hm
      · exact htbl m hm
      · rw [List.mem_singleton.mp hm]
    rw [List.foldl_cons,
      map_direct_kilopage_ok tbl (P + i * 4096) (mt + i * 4096)
        (by omega) (by omega) htbl,
      Option.getD_some, ih _ hstep]
    simp

theorem sendMessage_sent (ch : IpcChannel) (bs : Bytes) :
    (ch.sendMessage bs).sent = ch.sent ++ [IpcEvent.message bs] := rfl

/-! ## Claim theorems -/

/-- Claim C1: for every sequence of k grant calls with entries staged in
order on a fresh Vmspace, if spawn succeeds then the messages sent on the
returned IPC channel are exactly, in order, the name bytes of grant 1, its
capability with its rights, then the same pair for each following grant,
and finally one message whose bytes are the four bytes of done; in total
2k plus 1 events, names in grant order. -/
theorem spawn_handoff_order (grants : List Grant) (id tid cptr : Nat) :
    (grants.foldl Vmspace.grant (Vmspace.new id)).spawn (Except.ok (tid, cptr)) =
      SpawnResult.ok tid cptr
        (grants.flatMap
          (fun g => [IpcEvent.message g.name, IpcEvent.capability g.cap g.rights])
          ++ [IpcEvent.message doneBytes])
    ∧ (grants.flatMap
        (fun g => [IpcEvent.message g.name, IpcEvent.capability g.cap g.rights])
        ++ [IpcEvent.message doneBytes]).length = 2 * grants.length + 1 := by
  constructor
  · show Vmspace.spawn _ _ = _
    simp only [Vmspace.spawn, sendMessage_sent, foldl_send_sent,
      foldl_grant_caps, IpcChannel.new, Vmspace.new]
    simp
  · rw [List.length_append, bind_pair_length]
    simp

/-- Claim C2, evaluated at the failing input: with the free list holding a
single head node of size 24 (init over a 40-byte region at 4096) and a
request of 24 bytes with alignment 8, the node fits and is too small to
split, so the claim says alloc unlinks it and returns its payload pointer;
the code instead panics in the expect on the missing next pointer of the
head node. -/
theorem alloc_unlink_sole_head_panics :
    alloc (initFreeList 4096 40) 24 8 = AllocResult.panic := by decide

/-- Claim C3: when the first fitting node has size at least the
word-rounded request plus header plus 8, alloc splits it: the payload of
the chosen node is returned (its header keeping the rounded size), and a
new free node at node plus header plus rounded request, sized old size
minus rounded request minus one header, replaces it in the list. In
particular after init(origin, 4096) an allocation of 16 bytes leaves the
head free node with size 4096 minus header minus 16 minus header, located
16 payload bytes after the original header. -/
theorem alloc_split_spec (pre : List FreeListNode) (node : FreeListNode)
    (rest : List FreeListNode) (sz al origin : Nat) (hal : al ≤ 8)
    (hskip : ∀ n ∈ pre, n.size < align_to_usize sz)
    (hfit : align_to_usize sz + FreeListNode.struct_size + 8 ≤ node.size) :
    alloc (pre ++ node :: rest) sz al =
      AllocResult.success ⟨node.addr, align_to_usize sz⟩
        (pre ++ ⟨node.addr + FreeListNode.struct_size + align_to_usize sz,
                 node.size - align_to_usize sz - FreeListNode.struct_size⟩ :: rest)
    ∧ alloc (initFreeList origin 4096) 16 8 =
      AllocResult.success ⟨origin, 16⟩
        [⟨origin + FreeListNode.struct_size + 16,
          4096 - FreeListNode.struct_size - 16 - FreeListNode.struct_size⟩] := by
  constructor
  · cases pre with
    | nil =>
      rw [List.nil_append, alloc_of_cons node rest sz al hal]
      simpa using
        allocLoop_split_eq (align_to_usize sz) (align_to_usize_mod sz) true
          [] node rest (by simp) hfit
    | cons p ps =>
      rw [List.cons_append, alloc_of_cons p (ps ++ node :: rest) sz al hal]
      simpa using
        allocLoop_split_eq (align_to_usize sz) (align_to_usize_mod sz) true
          (p :: ps) node rest hskip hfit
  · rw [show initFreeList origin 4096 =
        [⟨origin, 4096 - FreeListNode.struct_size⟩] from rfl]
    rw [alloc_of_cons _ _ 16 8 (by omega)]
    have h16 : align_to_usize 16 = 16 := by decide
    have := allocLoop_split_eq (align_to_usize 16) (align_to_usize_mod 16) true
      [] ⟨origin, 4096 - FreeListNode.struct_size⟩ []
      (by simp)
      (by show align_to_usize 16 + FreeListNode.struct_size + 8 ≤
            4096 - FreeListNode.struct_size
          decide)
    rw [List.nil_append] at this
    rw [this, h16]
    unfold FreeListNode.struct_size
    simp

/-- Witness for claim C3 at a concrete input: a single free node of size
100 at address 4096 and a 16-byte request, and the concrete init scenario
at origin 0. -/
theorem alloc_split_spec_w :
    alloc [⟨4096, 100⟩] 16 8 =
      AllocResult.success ⟨4096, 16⟩ [⟨4128, 68⟩]
    ∧ alloc (initFreeList 0 4096) 16 8 =
      AllocResult.success ⟨0, 16⟩ [⟨32, 4048⟩] :=
  alloc_split_spec [] ⟨4096, 100⟩ [] 16 8 0 (by decide) (by simp) (by decide)

/-- Claim C4: if the heap was initialized with an 8-byte-aligned origin,
then in every state reachable by any sequence of alloc and dealloc calls,
every successful alloc for a request of the given size with alignment at
most 8 returns a payload pointer (block header address plus header size)
that is 8-byte aligned, over a block whose recorded size is at least the
requested size. -/
theorem alloc_returns_aligned_sized {origin total : Nat} {st : HeapState}
    {sz al : Nat} {blk : FreeListNode} {nf : List FreeListNode}
    (ho : origin % 8 = 0) (hr : Reachable origin total st) (hal : al ≤ 8)
    (h : alloc st.free sz al = AllocResult.success blk nf) :
    (blk.addr + FreeListNode.struct_size) % 8 = 0 ∧ sz ≤ blk.size := by
  obtain ⟨-, hloop⟩ := alloc_success_elim h
  obtain ⟨h1, h2, -⟩ :=
    allocLoop_success_props (align_to_usize_mod sz) true st.free
      (reachable_addrAligned ho hr).1 blk nf hloop
  refine ⟨?_, Nat.le_trans (le_align_to_usize sz) h2⟩
  unfold FreeListNode.struct_size
  omega

/-- Witness for claim C4: the state right after init(0, 4096) is reachable
and a 16-byte request with alignment 8 succeeds there with an aligned,
large-enough block. -/
theorem alloc_returns_aligned_sized_w :
    ((FreeListNode.mk 0 16).addr + FreeListNode.struct_size) % 8 = 0
    ∧ 16 ≤ (FreeListNode.mk 0 16).size :=
  alloc_returns_aligned_sized (show (0 : Nat) % 8 = 0 by decide)
    Reachable.init (show (8 : Nat) ≤ 8 by decide)
    (show alloc (initHeap 0 4096).free 16 8 =
      AllocResult.success ⟨0, 16⟩ [⟨32, 4048⟩] by decide)

/-- Claim C5, counterexample to the claim as stated: at the misaligned
physical address P = 0x1001 with size 0x1000, the page-table walker
rejects the misaligned 4 KiB mapping, so map_mmio installs nothing — the
resulting table is empty, not the claimed one-slice table — while still
returning 0xFFFFFFE000000000 + P. -/
theorem map_mmio_spec_cex :
    map_mmio [] 0x1001 0x1000 = some ([], 0xFFFFFFE000001001)
    ∧ map_mmio [] 0x1001 0x1000 ≠
      some ([⟨0x1001, 0xFFFFFFE000001001, PageSize.kilopage,
        ⟨true, true, false⟩⟩], 0xFFFFFFE000001001) := by
  constructor
  · decide
  · decide

/-- Claim C5 as amended: for every physical address P that is a multiple
of 4096 and every size a multiple of 4096, map_mmio maps each 4 KiB slice
of the physical range at the corresponding virtual slice starting at the
MMIO window 0xFFFFFFE000000000 plus P, with read and write permissions
and 4 KiB pages, and returns that virtual address; a size that is not a
multiple of 4096 trips the assertion. (A misaligned P is rejected by the
page-table walker, per the counterexample.) -/
theorem map_mmio_spec (P size : Nat) (hP : P % 4096 = 0) :
    (size % 4096 = 0 →
      map_mmio [] P size =
        some ((List.range (size / 4096)).map
          (fun idx => ⟨P + idx * 4096, 0xFFFFFFE000000000 + P + idx * 4096,
            PageSize.kilopage, ⟨true, true, false⟩⟩),
          0xFFFFFFE000000000 + P))
    ∧ (size % 4096 ≠ 0 → map_mmio [] P size = none) := by
  constructor
  · intro h
    simp only [map_mmio, MMIO_DEVICE_OFFSET, h, if_true, reduceIte]
    rw [map_mmio_foldl P (P + 0xFFFFFFE000000000) hP (by omega)
      (List.range (size / 4096)) [] (by simp)]
    rw [List.nil_append, Nat.add_comm P 0xFFFFFFE000000000]
  · intro h
    simp only [map_mmio, h, reduceIte]

/-- Witness for claim C5: mapping the 4 KiB MMIO region at the aligned
physical address 0x10000000 yields virtual 0xFFFFFFE010000000 with one
read-write kilopage mapping, and an unaligned size of 5 trips the
assertion. -/
theorem map_mmio_spec_w :
    map_mmio [] 0x10000000 0x1000 =
      some ([⟨0x10000000, 0xFFFFFFE010000000, PageSize.kilopage,
        ⟨true, true, false⟩⟩], 0xFFFFFFE010000000)
    ∧ map_mmio [] 0x10000000 5 = none :=
  ⟨(map_mmio_spec 0x10000000 0x1000 (by decide)).1 (by decide),
   (map_mmio_spec 0x10000000 5 (by decide)).2 (by decide)⟩

/-- Claim C6: for every free-list state and every request whose layout
alignment is greater than 8 bytes, alloc panics (the todo) and returns no
pointer. -/
theorem alloc_align_gt8_panics (free : List FreeListNode) (sz al : Nat)
    (h : 8 < al) : alloc free sz al = AllocResult.panic := by
  simp [alloc, h]

/-- Witness for claim C6: a 4-byte request with 16-byte alignment panics
even on a large free node. -/
theorem alloc_align_gt8_panics_w :
    alloc [⟨0, 100⟩] 4 16 = AllocResult.panic :=
  alloc_align_gt8_panics [⟨0, 100⟩] 4 16 (by decide)

/-- Claim C7: for every DmaRegion over a slice of N elements of byte size
S and every index i, if i is below N then get i returns an element whose
physical address is the region physical address plus i times S, and if i
is at least N then get i returns none. -/
theorem dma_get_spec (S : Nat) (r : DmaRegionSlice) (i : Nat) :
    (i < r.len → ∃ e, r.get S i = some e ∧ e.phys = r.phys + S * i)
    ∧ (r.len ≤ i → r.get S i = none) := by
  constructor
  · intro h
    exact ⟨⟨r.phys + S * i, r.virt + S * i⟩,
      by simp [DmaRegionSlice.get, h], rfl⟩
  · intro h
    simp [DmaRegionSlice.get, Nat.not_lt.mpr h]

/-- Witness for claim C7: a 4-element region of 8-byte elements based at
physical 0x8000; index 2 is in bounds with physical 0x8010, index 9 is
out of bounds. -/
theorem dma_get_spec_w :
    (∃ e, DmaRegionSlice.get 8 ⟨0x8000, 0x4000, 4⟩ 2 = some e
        ∧ e.phys = 0x8000 + 8 * 2)
    ∧ DmaRegionSlice.get 8 ⟨0x8000, 0x4000, 4⟩ 9 = none :=
  ⟨(dma_get_spec 8 ⟨0x8000, 0x4000, 4⟩ 2).1 (by decide),
   (dma_get_spec 8 ⟨0x8000, 0x4000, 4⟩ 9).2 (by decide)⟩

/-- Claim C8: assume_init on an uninitialized DmaRegion, slice or single
element, returns a region with the identical physical address, the
identical data pointer and, for slices, the identical length; it is a pure
repackaging with no reallocation and no syscall. -/
theorem assume_init_preserves (r : DmaRegionUninitSlice) (s : DmaRegionUninit) :
    r.assume_init.phys = r.phys ∧ r.assume_init.virt = r.virt
    ∧ r.assume_init.len = r.len
    ∧ s.assume_init.phys = s.phys ∧ s.assume_init.virt = s.virt :=
  ⟨rfl, rfl, rfl, rfl, rfl⟩

/-- Claim C9: whenever the underlying allocation syscall with the PRIVATE
option and read plus write permissions succeeds with some capability and
pointer, private_rw succeeds and returns the sentinel usize MAX as the
capability while keeping the pointer produced by the syscall. -/
theorem private_rw_sentinel
    (sys : Nat → Nat → MemoryPermissions → Except Nat (Nat × Nat))
    (size c p : Nat)
    (h : sys size AllocationOptions.PRIVATE MemoryPermissions.RW = Except.ok (c, p)) :
    MemoryAllocation.private_rw sys size = Except.ok ⟨USIZE_MAX, p⟩ := by
  simp [MemoryAllocation.private_rw, MemoryAllocation.new, h, Except.map]

/-- Witness for claim C9: a syscall stub returning capability 5 and
pointer 77 yields the sentinel capability and pointer 77. -/
theorem private_rw_sentinel_w :
    MemoryAllocation.private_rw (fun _ _ _ => Except.ok (5, 77)) 64 =
      Except.ok ⟨USIZE_MAX, 77⟩ :=
  private_rw_sentinel (fun _ _ _ => Except.ok (5, 77)) 64 5 77 rfl

/-- Claim C10: if the spawn_vmspace syscall fails, Vmspace.spawn returns
exactly that error; no channel is opened and no message or capability is
sent, since the hand-off only runs after a successful syscall. -/
theorem spawn_error_propagates (v : Vmspace) (e : Nat) :
    v.spawn (Except.error e) = SpawnResult.err e := rfl

end Vanadinite
